import Mathlib

/-!
Shallow embedding of the download-cache / classification core of the
IR-repository harvesting scripts (`scripts/mega_download.py`,
`scripts/blitz_download.py`, `scripts/download_and_organize.py`).

Modelling conventions:
* Text is `List Char`; byte contents are `List Nat`.
* Python `str.lower` is modelled by `Char.toLower` (ASCII-faithful; every
  keyword and tag in the scripts is ASCII).
* The SHA-256 hex digest (`hashlib.sha256(...).hexdigest()`) is an external
  library primitive and is modelled as an abstract function
  `h : List Nat → List Nat` of the byte content.
* `json.loads` is likewise abstracted as a `parse` function parameter.
* The filesystem is a partial map `List Char → Option (List Nat)` from paths
  to byte contents; `none` means `stat`/`open` raises (missing file).
-/

namespace IRRepo

def chars (s : String) : List Char := s.toList

def lowerStr (s : List Char) : List Char := s.map Char.toLower

/-- Last index of `c` in `l` (Python `str.rfind`). -/
def lastIdxOf (c : Char) (l : List Char) : Option Nat :=
  match l.reverse.findIdx? (· = c) with
  | none => none
  | some k => some (l.length - 1 - k)

/-- `PurePath.name`: the final path component (after the last `/`). -/
def pyBasename (p : List Char) : List Char :=
  (p.splitOn '/').getLastD []

/-- `PurePath.suffix`: the extension of the final component, `pathlib`
semantics (`name[i:]` when `0 < i < len(name) - 1` for `i = name.rfind('.')`,
else empty). -/
def pySuffix (p : List Char) : List Char :=
  let name := pyBasename p
  match lastIdxOf '.' name with
  | some i => if 0 < i ∧ i < name.length - 1 then name.drop i else []
  | none => []

/-- `PurePath.stem`: final component without the suffix. -/
def pyStem (p : List Char) : List Char :=
  let name := pyBasename p
  match lastIdxOf '.' name with
  | some i => if 0 < i ∧ i < name.length - 1 then name.take i else name
  | none => name

/-! ## Cache (`mega_download.Cache`; `DownloadCache` in
`download_and_organize.py` is the same algorithm with the field names
`downloaded_urls` / `file_hashes`). -/

/-- In-memory cache state: `self.data = {"urls": [...], "hashes": {...}}`.
The hash map is an association list keyed by digest; keys stay unique
because the source only inserts a digest that is not yet present. -/
structure CacheData where
  urls : List (List Char)
  hashes : List (List Nat × List Char)
deriving DecidableEq, Repr

def cacheEmpty : CacheData := ⟨[], []⟩

/-- Python dict lookup on the digest-keyed table. -/
def hLookup (d : List Nat) : List (List Nat × List Char) → Option (List Char)
  | [] => none
  | (d', p) :: rest => if d' = d then some p else hLookup d rest

/-- `Cache.seen`: `url in self.data["urls"]`. -/
def Cache.seen (st : CacheData) (url : List Char) : Bool :=
  st.urls.contains url

/-- `Cache.mark`: append the url unless already present. -/
def Cache.mark (st : CacheData) (url : List Char) : CacheData :=
  if url ∈ st.urls then st else { st with urls := st.urls ++ [url] }

/-- `Cache.is_dup`: hash the file content; on a hit return `true` without
touching the table, otherwise record `digest ↦ path` and return `false`.
(`DownloadCache.is_duplicate` is identical, chunked hashing producing the
same digest.) -/
def Cache.is_dup (h : List Nat → List Nat) (st : CacheData)
    (path : List Char) (content : List Nat) : Bool × CacheData :=
  let dg := h content
  match hLookup dg st.hashes with
  | some _ => (true, st)
  | none => (false, { st with hashes := st.hashes ++ [(dg, path)] })

/-- `Cache.reset_for_expansion`: clear only the URL list, keep the hashes. -/
def Cache.reset_for_expansion (st : CacheData) : CacheData :=
  { st with urls := [] }

/-- `Cache.__init__`: start from the empty default; if the cache file exists
try to parse it, swallowing any parse failure (`except: pass`). `file = none`
models a missing cache file, `parse txt = none` models `json.loads` raising
(truncated / unparseable text). -/
def Cache.init (file : Option (List Char))
    (parse : List Char → Option CacheData) : CacheData :=
  match file with
  | none => cacheEmpty
  | some txt =>
    match parse txt with
    | some d => d
    | none => cacheEmpty

/-- Present a sequence of `(path, content)` files to `Cache.is_dup`,
collecting the returned booleans and the final state. -/
def runDup (h : List Nat → List Nat) :
    CacheData → List (List Char × List Nat) → List Bool × CacheData
  | st, [] => ([], st)
  | st, (p, c) :: rest =>
    let r := Cache.is_dup h st p c
    let rr := runDup h r.2 rest
    (r.1 :: rr.1, rr.2)

/-- The cache operations `main` can invoke on the shared cache. `save`
serializes to disk and leaves the in-memory tables unchanged; `seenQ` is the
read-only membership test. -/
inductive CacheOp where
  | mark (k : List Char)
  | isDup (p : List Char) (c : List Nat)
  | seenQ (k : List Char)
  | save
  | reset
deriving DecidableEq

def CacheOp.apply (h : List Nat → List Nat) (st : CacheData) : CacheOp → CacheData
  | .mark k => Cache.mark st k
  | .isDup p c => (Cache.is_dup h st p c).2
  | .seenQ _ => st
  | .save => st
  | .reset => Cache.reset_for_expansion st

def runOps (h : List Nat → List Nat) (st : CacheData) (ops : List CacheOp) : CacheData :=
  ops.foldl (CacheOp.apply h) st

/-! ## Validator (`is_valid_wav` / `is_valid` in `mega_download.py` and
`blitz_download.py`; `validate_wav` / `validate_file` in
`download_and_organize.py`). -/

def riffTag : List Nat := [82, 73, 70, 70]

def waveTag : List Nat := [87, 65, 86, 69]

/-- The 4-byte little-endian unsigned field of `struct.unpack("<4sI4s", h)`
(parsed but unused by the validator). -/
def leU32 : List Nat → Nat
  | [b0, b1, b2, b3] => b0 + 256 * b1 + 65536 * b2 + 16777216 * b3
  | _ => 0

/-- `is_valid_wav`: read the first 12 bytes, reject a short read, unpack
`<4sI4s` and require the tags `RIFF` and `WAVE`. -/
def is_valid_wav (bytes : List Nat) : Bool :=
  let hd := bytes.take 12
  if hd.length < 12 then false
  else
    let r := hd.take 4
    let _sz := leU32 ((hd.drop 4).take 4)
    let w := (hd.drop 8).take 4
    r == riffTag && w == waveTag

/-- `is_valid` (mega/blitz core, applied to an existing file's bytes):
reject below 100 bytes; `.wav` files go through the header check; `.nam`
files are accepted on size alone; anything else is rejected. -/
def is_valid (path : List Char) (bytes : List Nat) : Bool :=
  if bytes.length < 100 then false
  else if lowerStr (pySuffix path) == chars (".wav") then is_valid_wav bytes
  else lowerStr (pySuffix path) == chars (".nam")

/-- `mega_download.is_valid` over the filesystem: the `p.stat()` call sits
inside `try/except`, so an unreadable file yields `False`. -/
def megaIsValid (fs : List Char → Option (List Nat)) (path : List Char) : Bool :=
  match fs path with
  | none => false
  | some bytes => is_valid path bytes

/-- `blitz_download.is_valid` over the filesystem: `p.stat().st_size` is NOT
guarded, so a missing file propagates the exception (`Except.error`). -/
def blitzIsValid (fs : List Char → Option (List Nat)) (path : List Char) :
    Except Unit Bool :=
  match fs path with
  | none => Except.error ()
  | some bytes => Except.ok (is_valid path bytes)

def namExtensions : List (List Char) := [chars (".nam"), chars (".json"), chars (".aidax")]

/-- `download_and_organize.validate_file`: unguarded `p.stat()` (missing file
raises); `.wav` via the guarded header check; `NAM_EXTENSIONS` accepted,
with `.json` additionally required to parse (`jsonOk` abstracts
`json.loads` succeeding); any other extension accepted. -/
def daoValidateFile (jsonOk : List Nat → Bool)
    (fs : List Char → Option (List Nat)) (path : List Char) :
    Except Unit Bool :=
  match fs path with
  | none => Except.error ()
  | some bytes => Except.ok (
      if bytes.length < 100 then false
      else if lowerStr (pySuffix path) == chars (".wav") then is_valid_wav bytes
      else if (lowerStr (pySuffix path)) ∈ namExtensions then
        (if lowerStr (pySuffix path) == chars (".json") then jsonOk bytes else true)
      else true)

/-! ## Classifier: `categorize` (mega and blitz variants). -/

/-- Python substring test `pat in s`. -/
def hasSub (pat : List Char) : List Char → Bool
  | [] => pat.isPrefixOf []
  | s@(_ :: rest) => pat.isPrefixOf s || hasSub pat rest

def containsAny (c : List Char) (ks : List (List Char)) : Bool :=
  ks.any (fun k => hasSub k c)

def megaBassKws : List (List Char) :=
  [chars ("bass"), chars ("bajo"), chars ("svt"), chars ("ampeg"),
   chars ("darkglass"), chars ("8x10"), chars ("4x10"), chars ("b-15"),
   chars ("b15"), chars ("portaflex")]

def megaAcousticKws : List (List Char) :=
  [chars ("acoustic"), chars ("piezo"), chars ("electroac"), chars ("taylor"),
   chars ("martin"), chars ("nylon"), chars ("body")]

def megaRoomKws : List (List Char) :=
  [chars ("reverb"), chars ("room"), chars ("hall"), chars ("plate"),
   chars ("spring"), chars ("echo"), chars ("ambient"), chars ("space"),
   chars ("convol")]

/-- `mega_download.categorize`: first-match ordered rules over the lowered
concatenation of context and filename; `.nam` wins unconditionally. -/
def categorize (context filename : List Char) : List Char :=
  let c := lowerStr (context ++ ' ' :: filename)
  let ext := lowerStr (pySuffix filename)
  if ext == chars (".nam") then chars ("NAM_Capturas")
  else if containsAny c megaBassKws then chars ("IR_Bajo")
  else if containsAny c megaAcousticKws then chars ("IR_Acustica")
  else if containsAny c megaRoomKws then chars ("IR_Utilidades")
  else chars ("IR_Guitarra")

def blitzBassKws : List (List Char) :=
  [chars ("bass"), chars ("bajo"), chars ("svt"), chars ("ampeg"),
   chars ("darkglass"), chars ("8x10"), chars ("4x10")]

def blitzAcousticKws : List (List Char) :=
  [chars ("acoustic"), chars ("piezo"), chars ("taylor"), chars ("nylon")]

def blitzRoomKws : List (List Char) :=
  [chars ("reverb"), chars ("room"), chars ("hall"), chars ("plate"),
   chars ("spring"), chars ("ambient"), chars ("convol")]

/-- `blitz_download.categorize`: same rule order with smaller keyword sets
(no `echo` / `space` in the room set). -/
def blitzCategorize (context filename : List Char) : List Char :=
  let c := lowerStr (context ++ ' ' :: filename)
  let ext := lowerStr (pySuffix filename)
  if ext == chars (".nam") then chars ("NAM_Capturas")
  else if containsAny c blitzBassKws then chars ("IR_Bajo")
  else if containsAny c blitzAcousticKws then chars ("IR_Acustica")
  else if containsAny c blitzRoomKws then chars ("IR_Utilidades")
  else chars ("IR_Guitarra")

/-! ## A small regular-expression engine covering exactly the constructs used
by the naming tables of `mega_download.py`: literals, `.`, `\s`, `[0-9]`,
`?`, `*` (only over one-character classes, as in `.*` and `\s*?`),
alternation and `\b`. `re.search` existence semantics: laziness of `*?` is
irrelevant and is dropped. -/

inductive CC where
  | any
  | ws
  | digit
  | list (l : List Char)
deriving DecidableEq, Repr

inductive RE where
  | eps
  | lit (c : Char)
  | cls (c : CC)
  | alt (a b : RE)
  | seq (a b : RE)
  | opt (r : RE)
  | star (c : CC)
  | wb
deriving DecidableEq, Repr

/-- Python character classes: `.` matches all but newline; `\s` is the ASCII
whitespace set. -/
def ccMatch : CC → Char → Bool
  | .any, c => c ≠ '\n'
  | .ws, c => c = ' ' || c = '\t' || c = '\n' || c = '\x0b' || c = '\x0c' || c = '\r'
  | .digit, c => c.isDigit
  | .list l, c => l.contains c

def isWordChar (c : Char) : Bool := c.isAlphanum || c = '_'

/-- `\b`: the previous character and the next character disagree on
word-ness (ends of the string count as non-word). -/
def wordBoundary (p : Option Char) (s : List Char) : Bool :=
  (match p with | none => false | some c => isWordChar c)
    != (match s with | [] => false | c :: _ => isWordChar c)

/-- All states reachable by consuming a run (possibly empty) of
`cc`-matching characters; a state is (previous character, remaining input). -/
def starStates (cc : CC) : Option Char → List Char → List (Option Char × List Char)
  | p, [] => [(p, [])]
  | p, c :: cs =>
    (p, c :: cs) :: (if ccMatch cc c then starStates cc (some c) cs else [])

/-- Nondeterministic matcher: all states after matching `r` at the start of
`s`, given previous character `p`. -/
def mAt : RE → Option Char → List Char → List (Option Char × List Char)
  | .eps, p, s => [(p, s)]
  | .lit _, _, [] => []
  | .lit c, _, x :: xs => if x = c then [(some x, xs)] else []
  | .cls _, _, [] => []
  | .cls cc, _, x :: xs => if ccMatch cc x then [(some x, xs)] else []
  | .alt a b, p, s => mAt a p s ++ mAt b p s
  | .seq a b, p, s => (mAt a p s).flatMap (fun q => mAt b q.1 q.2)
  | .opt r, p, s => (p, s) :: mAt r p s
  | .star cc, p, s => starStates cc p s
  | .wb, p, s => if wordBoundary p s then [(p, s)] else []

/-- `re.search`: try every start position (including the end of the
string). -/
def searchFrom (r : RE) (p : Option Char) : List Char → Bool
  | [] => !(mAt r p []).isEmpty
  | x :: xs => !(mAt r p (x :: xs)).isEmpty || searchFrom r (some x) xs

def reSearch (r : RE) (s : List Char) : Bool := searchFrom r none s

def lits : List Char → RE
  | [] => .eps
  | c :: cs => .seq (.lit c) (lits cs)

def litsS (s : String) : RE := lits s.toList

def rcat : List RE → RE
  | [] => .eps
  | [r] => r
  | r :: rest => .seq r (rcat rest)

def ralt : List RE → RE
  | [] => .cls (.list [])
  | [r] => r
  | r :: rest => .alt r (ralt rest)

def reAny : RE := .cls .any

def wsStar : RE := .star .ws

/-! ### The ordered brand / cab / mic tables of `mega_download.py` (dict
insertion order preserved; each regex transliterated). -/

def BRANDS : List (List Char × List RE) :=
  [(chars ("Marshall"), [litsS ("marshall"), litsS ("jcm"), litsS ("jvm"),
      litsS ("plexi"), litsS ("1959"), litsS ("1987"), litsS ("2203"),
      litsS ("2204"), litsS ("dsl"), litsS ("jmp")]),
   (chars ("Fender"), [litsS ("fender"), litsS ("twin"),
      rcat [litsS ("deluxe"), reAny, litsS ("reverb")], litsS ("bassman"),
      litsS ("princeton"), litsS ("champ"), litsS ("vibrolux")]),
   (chars ("Mesa"), [litsS ("mesa"), litsS ("boogie"), litsS ("rectifier"),
      litsS ("recto"), rcat [litsS ("dual"), reAny, litsS ("rec")],
      rcat [litsS ("triple"), reAny, litsS ("rec")],
      rcat [litsS ("mark"), reAny,
        ralt [litsS ("iv"), litsS ("v"), litsS ("ii"), litsS ("iii")]],
      litsS ("lonestar")]),
   (chars ("Vox"), [litsS ("vox"), rcat [litsS ("ac"), .opt reAny, litsS ("30")],
      rcat [litsS ("ac"), .opt reAny, litsS ("15")]]),
   (chars ("Orange"), [litsS ("orange"), litsS ("rockerverb"),
      litsS ("thunderverb"), rcat [litsS ("tiny"), reAny, litsS ("terror")]]),
   (chars ("Peavey"), [litsS ("peavey"), litsS ("5150"), litsS ("6505"),
      litsS ("invective")]),
   (chars ("EVH"), [rcat [.wb, litsS ("evh"), .wb], litsS ("stealth")]),
   (chars ("Bogner"), [litsS ("bogner"), litsS ("uberschall"),
      litsS ("ecstasy"), litsS ("shiva")]),
   (chars ("Soldano"), [litsS ("soldano"), litsS ("slo")]),
   (chars ("Diezel"), [litsS ("diezel"), litsS ("herbert"), litsS ("vh4")]),
   (chars ("Friedman"), [litsS ("friedman"),
      rcat [litsS ("be"), .opt reAny, litsS ("100")],
      rcat [litsS ("dirty"), reAny, litsS ("shirley")], litsS ("butterslax")]),
   (chars ("Engl"), [litsS ("engl"), litsS ("powerball"), litsS ("fireball"),
      litsS ("savage")]),
   (chars ("Ampeg"), [litsS ("ampeg"), litsS ("svt"),
      rcat [litsS ("b"), .opt (.lit '-'), litsS ("15")], litsS ("portaflex")]),
   (chars ("Darkglass"), [litsS ("darkglass"), litsS ("b7k")]),
   (chars ("Hiwatt"), [litsS ("hiwatt")]),
   (chars ("Suhr"), [rcat [.wb, litsS ("suhr"), .wb], litsS ("badger")]),
   (chars ("Hughes_Kettner"), [rcat [litsS ("hughes"), .star .any, litsS ("kettner")],
      litsS ("triamp"), litsS ("tubemeister")]),
   (chars ("Laney"), [litsS ("laney"), litsS ("ironheart")]),
   (chars ("Revv"), [rcat [.wb, litsS ("revv"), .wb], litsS ("generator")]),
   (chars ("Victory"), [litsS ("victory"), litsS ("kraken")]),
   (chars ("Celestion"), [litsS ("celestion"), litsS ("v30"),
      rcat [litsS ("vintage"), reAny, litsS ("30")], litsS ("greenback"),
      litsS ("creamback"), litsS ("g12"), litsS ("alnico")]),
   (chars ("Eminence"), [litsS ("eminence"),
      rcat [litsS ("swamp"), reAny, litsS ("thang")], litsS ("legend")]),
   (chars ("Jensen"), [litsS ("jensen")]),
   (chars ("Randall"), [litsS ("randall"), litsS ("satan")]),
   (chars ("Blackstar"), [litsS ("blackstar"),
      rcat [litsS ("ht"), .opt reAny, litsS ("club")]]),
   (chars ("Two_Rock"), [rcat [litsS ("two"), reAny, litsS ("rock")]]),
   (chars ("Matchless"), [litsS ("matchless"),
      rcat [litsS ("dc"), .opt reAny, litsS ("30")]]),
   (chars ("Dr_Z"), [rcat [litsS ("dr"), .opt reAny, litsS ("z")], litsS ("maz")]),
   (chars ("Dumble"), [litsS ("dumble"),
      rcat [litsS ("overdrive"), reAny, litsS ("special")]]),
   (chars ("Trainwreck"), [litsS ("trainwreck")]),
   (chars ("Rivera"), [litsS ("rivera")]),
   (chars ("Kemper"), [litsS ("kemper")]),
   (chars ("Line6"), [rcat [litsS ("line"), .opt reAny, litsS ("6")],
      litsS ("helix"), litsS ("pod")]),
   (chars ("Boss"), [rcat [.wb, litsS ("boss"), .wb], litsS ("katana")]),
   (chars ("TC_Electronic"), [rcat [litsS ("tc"), reAny, litsS ("electronic")]])]

def CABS : List (List Char × List RE) :=
  [(chars ("1x12"), [litsS ("1x12")]), (chars ("2x12"), [litsS ("2x12")]),
   (chars ("4x12"), [litsS ("4x12")]), (chars ("4x10"), [litsS ("4x10")]),
   (chars ("8x10"), [litsS ("8x10")]), (chars ("1x15"), [litsS ("1x15")])]

def MICS : List (List Char × List RE) :=
  [(chars ("SM57"), [litsS ("sm57")]), (chars ("MD421"), [litsS ("md421")]),
   (chars ("R121"), [litsS ("r121"), litsS ("royer")]),
   (chars ("U87"), [litsS ("u87")]), (chars ("E609"), [litsS ("e609")])]

/-- `_match(text, patterns)`: lower the text, walk the table in order,
return the first key any of whose patterns matches. -/
def reMatch (text : List Char) (table : List (List Char × List RE)) :
    Option (List Char) :=
  let t := lowerStr text
  table.findSome? (fun e => if e.2.any (fun r => reSearch r t) then some e.1 else none)

/-- `model_patterns` of `clean_filename` (searched with `re.I` over the
already-lowercase full context; embedded with lowercase patterns over the
lowered text). -/
def modelPatterns : List (RE × List Char) :=
  [(ralt [rcat [litsS ("jcm"), wsStar, litsS ("800")],
      rcat [litsS ("jcm"), wsStar, litsS ("900")],
      rcat [litsS ("jcm"), wsStar, litsS ("2000")]], chars ("JCM")),
   (ralt [rcat [litsS ("dual"), wsStar, litsS ("rect")],
      rcat [litsS ("triple"), wsStar, litsS ("rect")],
      litsS ("recto")], chars ("Rectifier")),
   (ralt [litsS ("5150"), litsS ("6505")], chars ("5150")),
   (ralt [rcat [litsS ("ac"), wsStar, litsS ("30")],
      rcat [litsS ("ac"), wsStar, litsS ("15")]], chars ("VoxAC")),
   (ralt [litsS ("twin"), litsS ("deluxe"), litsS ("princeton"),
      litsS ("bassman")], chars ("Fender")),
   (ralt [litsS ("svt"), litsS ("b15")], chars ("Ampeg")),
   (ralt [litsS ("plexi"), litsS ("1959"), litsS ("1987")], chars ("Plexi")),
   (ralt [litsS ("uberschall"), litsS ("ecstasy")], chars ("Bogner")),
   (ralt [litsS ("vh4"), litsS ("herbert")], chars ("Diezel")),
   (ralt [rcat [litsS ("be"), wsStar, litsS ("100")], litsS ("hbe")],
      chars ("FriedmanBE")),
   (ralt [litsS ("satan"), litsS ("thrasher")], chars ("Randall"))]

def modelFind (t : List Char) : Option (List Char) :=
  modelPatterns.findSome? (fun e => if reSearch e.1 (lowerStr t) then some e.2 else none)

/-- `r"(high|hi).?gain|metal|lead|dist|ch3|red"`. -/
def higainRE : RE :=
  ralt [rcat [ralt [litsS ("high"), litsS ("hi")], .opt reAny, litsS ("gain")],
    litsS ("metal"), litsS ("lead"), litsS ("dist"), litsS ("ch3"), litsS ("red")]

/-- `r"crunch|drive|breakup|ch2|orange"`. -/
def crunchRE : RE :=
  ralt [litsS ("crunch"), litsS ("drive"), litsS ("breakup"), litsS ("ch2"),
    litsS ("orange")]

/-- `r"clean|jazz|ch1|green"`. -/
def cleanRE : RE :=
  ralt [litsS ("clean"), litsS ("jazz"), litsS ("ch1"), litsS ("green")]

/-! ### `clean_filename` -/

/-- `re.sub(r"[\(\)\[\]]", "", stem)`. -/
def removeBrackets (s : List Char) : List Char :=
  s.filter (fun c => !(c = '(' || c = ')' || c = '[' || c = ']'))

def replaceChar (a b : Char) (s : List Char) : List Char :=
  s.map (fun c => if c = a then b else c)

/-- The pre-cleaned stem: brackets removed, then space / dash / dot turned
into underscores. -/
def cleanedStem (filename : List Char) : List Char :=
  replaceChar '.' '_' (replaceChar '-' '_' (replaceChar ' ' '_'
    (removeBrackets (pyStem filename))))

/-- `full_context = (context + "_" + stem).lower()`. -/
def fullContext (context filename : List Char) : List Char :=
  lowerStr (context ++ '_' :: cleanedStem filename)

def collapseU : Bool → List Char → List Char
  | _, [] => []
  | prevU, c :: rest =>
    if c = '_' then
      (if prevU then collapseU true rest else '_' :: collapseU true rest)
    else c :: collapseU false rest

/-- `re.sub(r"_+", "_", s)`. -/
def collapseUnderscores (s : List Char) : List Char := collapseU false s

/-- `s.strip("_")`. -/
def stripUnderscores (s : List Char) : List Char :=
  ((s.dropWhile (· = '_')).reverse.dropWhile (· = '_')).reverse

/-- Python `str.capitalize`: first character upper-cased, the rest lowered. -/
def pyCapitalize : List Char → List Char
  | [] => []
  | c :: rest => c.toUpper :: rest.map Char.toLower

/-- One step of `re.sub(r"(ir|demo|test|v[0-9]|final|mix|wav|nam|capture|profile|rig)", "", stem, flags=re.I)`:
the length of the junk alternative matching at the head of `s` (alternatives
tried in the pattern's order), if any. -/
def junkAt (s : List Char) : Option Nat :=
  if lowerStr (s.take 2) = chars ("ir") then some 2
  else if lowerStr (s.take 4) = chars ("demo") then some 4
  else if lowerStr (s.take 4) = chars ("test") then some 4
  else if (match s with | c :: d :: _ => c.toLower = 'v' && d.isDigit | _ => false) then some 2
  else if lowerStr (s.take 5) = chars ("final") then some 5
  else if lowerStr (s.take 3) = chars ("mix") then some 3
  else if lowerStr (s.take 3) = chars ("wav") then some 3
  else if lowerStr (s.take 3) = chars ("nam") then some 3
  else if lowerStr (s.take 7) = chars ("capture") then some 7
  else if lowerStr (s.take 7) = chars ("profile") then some 7
  else if lowerStr (s.take 3) = chars ("rig") then some 3
  else none

def stripJunkF : Nat → List Char → List Char
  | 0, s => s
  | _ + 1, [] => []
  | fuel + 1, c :: rest =>
    match junkAt (c :: rest) with
    | some n => stripJunkF fuel ((c :: rest).drop n)
    | none => c :: stripJunkF fuel rest

/-- The junk-word removal sub; every alternative is at least 2 characters,
so `s.length` steps of fuel always suffice. -/
def stripJunk (s : List Char) : List Char := stripJunkF s.length s

/-- `re.sub(r"[^a-zA-Z0-9]", "", s)`. -/
def filterAlnum (s : List Char) : List Char := s.filter (fun c => c.isAlphanum)

/-- `Path(context).parent.name`: the second-to-last path component. -/
def pyParentName (ctx : List Char) : List Char :=
  let comps := (ctx.splitOn '/').filter (fun c => !c.isEmpty)
  match comps with
  | [] => []
  | [_] => []
  | _ => comps.getD (comps.length - 2) []

/-- The fallback token built when fewer than two parts were detected. -/
def fallbackToken (context stem : List Char) : List Char :=
  let cs := stripUnderscores (collapseUnderscores (stripJunk stem))
  let cs2 :=
    if cs.length < 3 then
      (filterAlnum (if '/' ∈ context then pyParentName context else context)) ++ '_' :: cs
    else cs
  cs2.take 40

/-- The ordered token list built by `clean_filename` steps 1–6. -/
def partsOf (context filename : List Char) : List (List Char) :=
  let t := fullContext context filename
  let brand := reMatch t BRANDS
  let parts1 := match brand with | some b => [b] | none => []
  let parts2 :=
    match modelFind t with
    | none => parts1
    | some lbl =>
      if !(parts1.contains lbl)
          && (match brand with | none => true | some b => !(hasSub b lbl)) then
        parts1 ++ [lbl]
      else parts1
  let parts3 := parts2 ++ (match reMatch t CABS with | some cb => [cb] | none => [])
  let parts4 := parts3 ++ (match reMatch t MICS with | some m => [m] | none => [])
  let parts5 := parts4 ++
    (if reSearch higainRE t then [chars ("HiGain")]
     else if reSearch crunchRE t then [chars ("Crunch")]
     else if reSearch cleanRE t then [chars ("Clean")]
     else [])
  if parts5.length < 2 then parts5 ++ [fallbackToken context (cleanedStem filename)]
  else parts5

/-- `clean_filename`: join the parts, collapse and strip underscores,
title-case each underscore-delimited word, re-append the lowered suffix. -/
def clean_filename (context filename : List Char) : List Char :=
  let fin := stripUnderscores (collapseUnderscores
    (List.intercalate ['_'] (partsOf context filename)))
  let fin2 := List.intercalate ['_'] ((fin.splitOn '_').map pyCapitalize)
  fin2 ++ lowerStr (pySuffix filename)

/-! ## Collision-resolved placement (`organize_file`): the output directory
for one category is modelled as the list of names it already contains. -/

def freeNameLoop (existing : List (List Char)) (s x : List Char) :
    Nat → Nat → List Char
  | 0, i => s ++ '_' :: (Nat.toDigits 10 i) ++ x
  | fuel + 1, i =>
    let cand := s ++ '_' :: (Nat.toDigits 10 i) ++ x
    if cand ∈ existing then freeNameLoop existing s x fuel (i + 1) else cand

/-- Destination name chosen by `organize_file`: the computed name if free,
else `stem_i + suffix` for the least free `i ≥ 1` (`existing.length + 1`
rounds of fuel are always enough to find a free name). -/
def pyCopyDest (existing : List (List Char)) (name : List Char) : List Char :=
  if name ∈ existing then
    freeNameLoop existing (pyStem name) (pySuffix name) (existing.length + 1) 1
  else name

/-- Place a sequence of computed names into one category directory,
recording each chosen destination (the `shutil.copy2` creates the file, so
later placements see it). -/
def placeAll : List (List Char) → List (List Char) → List (List Char) × List (List Char)
  | existing, [] => ([], existing)
  | existing, n :: rest =>
    let d := pyCopyDest existing n
    let r := placeAll (existing ++ [d]) rest
    (d :: r.1, r.2)

/-! ## Interleaving model for `Cache.is_dup` under the thread pool.
The source body has two atomic actions: the membership test
`h in self.data["hashes"]` and the update `self.data["hashes"][h] = path`;
no lock is held between them. -/

structure DupThread where
  path : List Char
  content : List Nat
  pc : Nat
  result : Option Bool
deriving DecidableEq, Repr

def mkDupThread (p : List Char) (c : List Nat) : DupThread := ⟨p, c, 0, none⟩

/-- One atomic step of a thread executing `Cache.is_dup`. -/
def dupStep (h : List Nat → List Nat) (st : CacheData) (t : DupThread) :
    CacheData × DupThread :=
  match t.pc with
  | 0 =>
    (match hLookup (h t.content) st.hashes with
     | some _ => (st, { t with pc := 2, result := some true })
     | none => (st, { t with pc := 1 }))
  | 1 => ({ st with hashes := st.hashes ++ [(h t.content, t.path)] },
      { t with pc := 2, result := some false })
  | _ => (st, t)

/-- Run two threads under a schedule (`true` steps thread 1). -/
def runSched (h : List Nat → List Nat) :
    CacheData → DupThread → DupThread → List Bool → CacheData × DupThread × DupThread
  | st, t1, t2, [] => (st, t1, t2)
  | st, t1, t2, b :: rest =>
    if b then
      let r := dupStep h st t1
      runSched h r.1 r.2 t2 rest
    else
      let r := dupStep h st t2
      runSched h r.1 t1 r.2 rest

/-! ## Concrete inputs used by witnesses. -/

def demoWavBytes : List Nat := riffTag ++ [0, 1, 0, 0] ++ waveTag ++ List.replicate 88 0

def marshallPhrase : List Char := chars ("Marshall JCM800 4x12 V30 SM57 high gain")

def marshallStem : List Char := chars ("Marshall_Jcm_4x12_Sm57_Higain")

/-- The lowercase form of `marshallPhrase`. -/
def lphrase : List Char := chars ("marshall jcm800 4x12 v30 sm57 high gain")

/-- The text `_match` actually searches (it lowers its input once more). -/
def searchText (context filename : List Char) : List Char :=
  lowerStr (fullContext context filename)

/-- Content of the `i`-th presented file. -/
def contentAt (fs : List (List Char × List Nat)) (i : Nat) : List Nat :=
  (fs.getD i ([], [])).2

/-- First-some choice on options (used to state lookup evolution). -/
def optOr (a b : Option (List Char)) : Option (List Char) :=
  match a with
  | some x => some x
  | none => b

/-- Two distinct paths with byte-identical content. -/
def demoFiles : List (List Char × List Nat) :=
  [(chars ("a.wav"), [1, 2]), (chars ("b.wav"), [1, 2])]

/-! # Theorems -/

/-! ## Helper lemmas about the cache. -/

theorem is_dup_urls_eq (h : List Nat → List Nat) (st : CacheData)
    (p : List Char) (c : List Nat) : (Cache.is_dup h st p c).2.urls = st.urls := by
  unfold Cache.is_dup
  cases hq : hLookup (h c) st.hashes <;> simp [hq]

theorem mark_mem_preserved (st : CacheData) (k u : List Char)
    (hk : k ∈ st.urls) : k ∈ (Cache.mark st u).urls := by
  unfold Cache.mark
  split
  · exact hk
  · exact List.mem_append_left _ hk

/-- C5: once `Cache.mark` has recorded a key, no cache operation the main
loop invokes after initialization (`mark`, `is_dup`, `seen`, `save` — every
operation other than the startup-only `reset_for_expansion`) removes it, so
`Cache.seen` of that key stays true for the rest of the run. -/
theorem cache_mark_monotonic (h : List Nat → List Nat) (k : List Char) :
    ∀ (ops : List CacheOp) (st : CacheData),
      (∀ op ∈ ops, op ≠ CacheOp.reset) → k ∈ st.urls →
      k ∈ (runOps h st ops).urls := by
  intro ops
  induction ops with
  | nil => intro st _ hk; simpa [runOps] using hk
  | cons op rest ih =>
    intro st hnr hk
    have hstep : k ∈ (CacheOp.apply h st op).urls := by
      cases op with
      | mark u => exact mark_mem_preserved st k u hk
      | isDup p c => simpa [CacheOp.apply, is_dup_urls_eq] using hk
      | seenQ u => exact hk
      | save => exact hk
      | reset => exact absurd rfl (hnr _ (List.mem_cons_self _ _))
    have hrest : ∀ o ∈ rest, o ≠ CacheOp.reset :=
      fun o ho => hnr o (List.mem_cons_of_mem _ ho)
    simpa [runOps] using ih (CacheOp.apply h st op) hrest hstep

/-- Witness for C5 at a concrete run. -/
theorem cache_mark_monotonic_witness :
    (∀ op ∈ [CacheOp.mark (chars ("a")), CacheOp.save], op ≠ CacheOp.reset)
    ∧ chars ("k") ∈ (runOps (fun c => c)
        ⟨[chars ("k")], []⟩ [CacheOp.mark (chars ("a")), CacheOp.save]).urls :=
  ⟨by decide,
   cache_mark_monotonic (fun c => c) (chars ("k")) _ _ (by decide) (by decide)⟩

/-- C10: `reset_for_expansion` empties only the URL list and leaves the
hash index untouched; afterwards every source key reads as unseen, while
any content whose digest is recorded still reports as a duplicate. -/
theorem reset_for_expansion_frame (st : CacheData) (h : List Nat → List Nat)
    (k p : List Char) (c : List Nat)
    (hrec : (hLookup (h c) st.hashes).isSome = true) :
    (Cache.reset_for_expansion st).urls = []
    ∧ (Cache.reset_for_expansion st).hashes = st.hashes
    ∧ Cache.seen (Cache.reset_for_expansion st) k = false
    ∧ (Cache.is_dup h (Cache.reset_for_expansion st) p c).1 = true := by
  refine ⟨rfl, rfl, rfl, ?_⟩
  obtain ⟨v, hv⟩ := Option.isSome_iff_exists.mp hrec
  simp [Cache.is_dup, Cache.reset_for_expansion, hv]

/-- Witness for C10 on a one-entry cache. -/
theorem reset_for_expansion_frame_witness :
    ((hLookup ((fun c => c) [1])
        (CacheData.mk [chars ("u")] [([1], chars ("p"))]).hashes).isSome = true)
    ∧ (Cache.is_dup (fun c => c)
        (Cache.reset_for_expansion (CacheData.mk [chars ("u")] [([1], chars ("p"))]))
        (chars ("q")) [1]).1 = true :=
  ⟨by decide,
   (reset_for_expansion_frame (CacheData.mk [chars ("u")] [([1], chars ("p"))])
     (fun c => c) (chars ("x")) (chars ("q")) [1] (by decide)).2.2.2⟩

/-- C6: a missing cache file, or one whose text fails to parse, yields the
empty-but-functional cache (empty url list, empty hash index, every key
unseen); `Cache.init` is total, so no exception escapes. -/
theorem cache_init_fallback (parse : List Char → Option CacheData)
    (txt : List Char) (hbad : parse txt = none) :
    Cache.init none parse = cacheEmpty
    ∧ Cache.init (some txt) parse = cacheEmpty
    ∧ (Cache.init (some txt) parse).urls = []
    ∧ (Cache.init (some txt) parse).hashes = []
    ∧ ∀ k, Cache.seen (Cache.init (some txt) parse) k = false := by
  have h2 : Cache.init (some txt) parse = cacheEmpty := by
    simp [Cache.init, hbad]
  exact ⟨rfl, h2, by rw [h2]; rfl, by rw [h2]; rfl, fun k => by rw [h2]; rfl⟩

/-- Witness for C6: the empty string is unparseable (`json.loads("")`
raises), and init falls back to the empty cache. -/
theorem cache_init_fallback_witness :
    ((fun _ : List Char => (none : Option CacheData)) (chars ("")) = none)
    ∧ Cache.init (some (chars (""))) (fun _ => none) = cacheEmpty :=
  ⟨rfl, (cache_init_fallback (fun _ => none) (chars ("")) rfl).2.1⟩

/-- C9 counterexample: with the unguarded two-step body of `Cache.is_dup`,
the schedule check₁-check₂-update₁-update₂ on byte-identical contents makes
BOTH calls return false — the interleaving the claim says cannot happen. -/
theorem is_dup_race_counterexample :
    ((runSched (fun c => c) cacheEmpty (mkDupThread (chars ("p1")) [1, 2])
        (mkDupThread (chars ("p2")) [1, 2]) [true, false, true, false]).2.1.result
      = some false)
    ∧ ((runSched (fun c => c) cacheEmpty (mkDupThread (chars ("p1")) [1, 2])
        (mkDupThread (chars ("p2")) [1, 2]) [true, false, true, false]).2.2.result
      = some false) :=
  ⟨by decide, by decide⟩

/-- C9 amended: the cache has no lock; a fully serialized execution of two
`is_dup` calls on identical content returns false then true, but the
check-check-update-update interleaving returns false twice, so concurrent
mutations can interleave incorrectly. -/
theorem is_dup_unlocked_interleavings (h : List Nat → List Nat)
    (p1 p2 : List Char) (c : List Nat) :
    (((runSched h cacheEmpty (mkDupThread p1 c) (mkDupThread p2 c)
        [true, true, false, false]).2.1.result = some false)
     ∧ ((runSched h cacheEmpty (mkDupThread p1 c) (mkDupThread p2 c)
        [true, true, false, false]).2.2.result = some true))
    ∧ (((runSched h cacheEmpty (mkDupThread p1 c) (mkDupThread p2 c)
        [true, false, true, false]).2.1.result = some false)
     ∧ ((runSched h cacheEmpty (mkDupThread p1 c) (mkDupThread p2 c)
        [true, false, true, false]).2.2.result = some false)) := by
  refine ⟨⟨?_, ?_⟩, ?_, ?_⟩ <;>
    simp [runSched, dupStep, mkDupThread, hLookup, cacheEmpty]

/-- C8 amended: the mega validator swallows a failing `stat` and returns
false, while the blitz and download_and_organize validators propagate it;
for a readable file none of the three raises. -/
theorem validator_exception_semantics (fs : List Char → Option (List Nat))
    (jsonOk : List Nat → Bool) (path : List Char) :
    (fs path = none → megaIsValid fs path = false)
    ∧ (fs path = none ↔ blitzIsValid fs path = Except.error ())
    ∧ (fs path = none ↔ daoValidateFile jsonOk fs path = Except.error ()) := by
  refine ⟨fun hn => by simp [megaIsValid, hn], ⟨?_, ?_⟩, ⟨?_, ?_⟩⟩
  · intro hn; simp [blitzIsValid, hn]
  · intro he
    cases hq : fs path with
    | none => rfl
    | some b => simp [blitzIsValid, hq] at he
  · intro hn; simp [daoValidateFile, hn]
  · intro he
    cases hq : fs path with
    | none => rfl
    | some b => simp [daoValidateFile, hq] at he

/-- Witness for C8 amended at the empty filesystem. -/
theorem validator_exception_semantics_witness :
    (megaIsValid (fun _ => none) (chars ("m.wav")) = false)
    ∧ (blitzIsValid (fun _ => none) (chars ("m.wav")) = Except.error ()) :=
  ⟨(validator_exception_semantics (fun _ => none) (fun _ => true)
      (chars ("m.wav"))).1 rfl,
   (validator_exception_semantics (fun _ => none) (fun _ => true)
      (chars ("m.wav"))).2.1.mp rfl⟩

/-- C8 counterexample: on a missing file the blitz and
download_and_organize validators raise (`Except.error`) instead of
returning false as the claim states. -/
theorem validator_missing_file_raises :
    (blitzIsValid (fun _ => none) (chars ("missing.wav")) = Except.error ())
    ∧ (daoValidateFile (fun _ => true) (fun _ => none) (chars ("missing.wav"))
        = Except.error ())
    ∧ (blitzIsValid (fun _ => none) (chars ("missing.wav")) ≠ Except.ok false) :=
  ⟨rfl, rfl, by simp [blitzIsValid]⟩

/-- C3: the validator rejects every file under 100 bytes (in particular an
empty one); a `.wav` file of at least 100 bytes is accepted iff the first
and third 4-byte fields of the 12-byte header are the ASCII tags `RIFF` and
`WAVE`; a short read (fewer than 12 bytes) fails the wav check; a `.nam`
file of at least 100 bytes is accepted regardless of content. -/
theorem is_valid_spec (path : List Char) (bytes : List Nat) :
    (bytes.length < 100 → is_valid path bytes = false)
    ∧ (lowerStr (pySuffix path) = chars (".wav") → 100 ≤ bytes.length →
        (is_valid path bytes = true ↔
          bytes.take 4 = riffTag ∧ (bytes.drop 8).take 4 = waveTag))
    ∧ (bytes.length < 12 → is_valid_wav bytes = false)
    ∧ (lowerStr (pySuffix path) = chars (".nam") → 100 ≤ bytes.length →
        is_valid path bytes = true) := by
  refine ⟨fun hlt => by simp [is_valid, hlt], ?_, ?_, ?_⟩
  · intro hw hlen
    have hnot : ¬ bytes.length < 100 := Nat.not_lt.mpr hlen
    have h12 : ¬ (bytes.take 12).length < 12 := by
      simp [List.length_take]
      omega
    have e1 : (bytes.take 12).take 4 = bytes.take 4 := by
      simp [List.take_take]
    have e2 : ((bytes.take 12).drop 8).take 4 = (bytes.drop 8).take 4 := by
      simp [List.drop_take, List.take_take]
    have hv : is_valid path bytes = is_valid_wav bytes := by
      simp [is_valid, hnot, hw]
    have hw12 : is_valid_wav bytes
        = (bytes.take 4 == riffTag && (bytes.drop 8).take 4 == waveTag) := by
      simp only [is_valid_wav]
      rw [if_neg h12, e1, e2]
    rw [hv, hw12]
    simp [Bool.and_eq_true, beq_iff_eq]
  · intro hlt
    have h12 : (bytes.take 12).length < 12 := by
      simp [List.length_take]
      omega
    simp only [is_valid_wav]
    rw [if_pos h12]
  · intro hn hlen
    have hnot : ¬ bytes.length < 100 := Nat.not_lt.mpr hlen
    have hne : (chars (".nam") == chars (".wav")) = false := by decide
    simp [is_valid, hnot, hn, hne]

/-- Witness for C3 on a 100-byte RIFF/WAVE file. -/
theorem is_valid_spec_witness :
    (lowerStr (pySuffix (chars ("f.wav"))) = chars (".wav"))
    ∧ 100 ≤ demoWavBytes.length
    ∧ is_valid (chars ("f.wav")) demoWavBytes = true :=
  ⟨by decide, by decide,
   ((is_valid_spec (chars ("f.wav")) demoWavBytes).2.1 (by decide)
      (by decide)).mpr ⟨by decide, by decide⟩⟩

/-- C7: if the computed name is free it is used; a second input computing
the identical name in the same category directory gets the `_1` suffix
before the extension, and the two resulting files are distinct. -/
theorem organize_collision (existing : List (List Char)) (name : List Char)
    (h1 : name ∉ existing)
    (h2 : (pyStem name ++ '_' :: '1' :: pySuffix name) ∉ name :: existing) :
    (placeAll existing [name, name]).1
      = [name, pyStem name ++ '_' :: '1' :: pySuffix name]
    ∧ name ≠ pyStem name ++ '_' :: '1' :: pySuffix name := by
  have hne : (pyStem name ++ '_' :: '1' :: pySuffix name) ≠ name := by
    intro he
    exact h2 (by rw [he]; exact List.mem_cons_self _ _)
  have hnotex : (pyStem name ++ '_' :: '1' :: pySuffix name) ∉ existing :=
    fun he => h2 (List.mem_cons_of_mem _ he)
  have hd1 : pyCopyDest existing name = name := by
    simp [pyCopyDest, h1]
  have hmem2 : name ∈ existing ++ [name] := by simp
  have hcand : (pyStem name ++ '_' :: '1' :: pySuffix name) ∉ existing ++ [name] := by
    simp only [List.mem_append, List.mem_singleton]
    rintro (he | he)
    · exact hnotex he
    · exact hne he
  have hd2 : pyCopyDest (existing ++ [name]) name
      = pyStem name ++ '_' :: '1' :: pySuffix name := by
    have hdig : Nat.toDigits 10 1 = ['1'] := rfl
    simp [pyCopyDest, hmem2, freeNameLoop, hdig, hcand]
  refine ⟨?_, fun he => hne he.symm⟩
  simp [placeAll, hd1, hd2]

/-- Witness for C7 in an empty category directory. -/
theorem organize_collision_witness :
    (chars ("Marshall_V30.wav") ∉ ([] : List (List Char)))
    ∧ (placeAll [] [chars ("Marshall_V30.wav"), chars ("Marshall_V30.wav")]).1
      = [chars ("Marshall_V30.wav"),
         pyStem (chars ("Marshall_V30.wav")) ++ '_' :: '1' ::
           pySuffix (chars ("Marshall_V30.wav"))] :=
  ⟨by decide,
   (organize_collision [] (chars ("Marshall_V30.wav")) (by decide) (by decide)).1⟩

/-- C2 amended: mega_download's classifier implements exactly the claimed
ordered first-match rules (`.nam` unconditionally, then bass, acoustic,
room/reverb — whose set includes `echo` — then the guitar default), and the
three example classifications hold for the mega and the blitz variant; the
blitz variant's room set omits `echo`. -/
theorem categorize_spec :
    (∀ ctx fn, lowerStr (pySuffix fn) = chars (".nam") →
        categorize ctx fn = chars ("NAM_Capturas"))
    ∧ (∀ ctx fn, lowerStr (pySuffix fn) ≠ chars (".nam") →
        containsAny (lowerStr (ctx ++ ' ' :: fn)) megaBassKws = true →
        categorize ctx fn = chars ("IR_Bajo"))
    ∧ (∀ ctx fn, lowerStr (pySuffix fn) ≠ chars (".nam") →
        containsAny (lowerStr (ctx ++ ' ' :: fn)) megaBassKws = false →
        containsAny (lowerStr (ctx ++ ' ' :: fn)) megaAcousticKws = true →
        categorize ctx fn = chars ("IR_Acustica"))
    ∧ (∀ ctx fn, lowerStr (pySuffix fn) ≠ chars (".nam") →
        containsAny (lowerStr (ctx ++ ' ' :: fn)) megaBassKws = false →
        containsAny (lowerStr (ctx ++ ' ' :: fn)) megaAcousticKws = false →
        containsAny (lowerStr (ctx ++ ' ' :: fn)) megaRoomKws = true →
        categorize ctx fn = chars ("IR_Utilidades"))
    ∧ (∀ ctx fn, lowerStr (pySuffix fn) ≠ chars (".nam") →
        containsAny (lowerStr (ctx ++ ' ' :: fn)) megaBassKws = false →
        containsAny (lowerStr (ctx ++ ' ' :: fn)) megaAcousticKws = false →
        hasSub (chars ("echo")) (lowerStr (ctx ++ ' ' :: fn)) = true →
        categorize ctx fn = chars ("IR_Utilidades"))
    ∧ (∀ ctx fn, lowerStr (pySuffix fn) ≠ chars (".nam") →
        containsAny (lowerStr (ctx ++ ' ' :: fn)) megaBassKws = false →
        containsAny (lowerStr (ctx ++ ' ' :: fn)) megaAcousticKws = false →
        containsAny (lowerStr (ctx ++ ' ' :: fn)) megaRoomKws = false →
        categorize ctx fn = chars ("IR_Guitarra"))
    ∧ categorize (chars ("bass/svt/cab.wav")) (chars ("cab.wav")) = chars ("IR_Bajo")
    ∧ (∀ ctx, categorize ctx (chars ("model.nam")) = chars ("NAM_Capturas"))
    ∧ categorize (chars ("hall_reverb_demo.wav")) (chars ("demo.wav"))
        = chars ("IR_Utilidades")
    ∧ blitzCategorize (chars ("bass/svt/cab.wav")) (chars ("cab.wav")) = chars ("IR_Bajo")
    ∧ (∀ ctx, blitzCategorize ctx (chars ("model.nam")) = chars ("NAM_Capturas"))
    ∧ blitzCategorize (chars ("hall_reverb_demo.wav")) (chars ("demo.wav"))
        = chars ("IR_Utilidades") := by
  have hnam : (lowerStr (pySuffix (chars ("model.nam"))) == chars (".nam")) = true := by
    decide
  refine ⟨?_, ?_, ?_, ?_, ?_, ?_, by decide, ?_, by decide, by decide, ?_, by decide⟩
  · intro ctx fn h
    simp [categorize, h]
  · intro ctx fn h hbass
    have hb : (lowerStr (pySuffix fn) == chars (".nam")) = false :=
      beq_eq_false_iff_ne.mpr h
    simp [categorize, hb, hbass]
  · intro ctx fn h hbass hac
    have hb : (lowerStr (pySuffix fn) == chars (".nam")) = false :=
      beq_eq_false_iff_ne.mpr h
    simp [categorize, hb, hbass, hac]
  · intro ctx fn h hbass hac hroom
    have hb : (lowerStr (pySuffix fn) == chars (".nam")) = false :=
      beq_eq_false_iff_ne.mpr h
    simp [categorize, hb, hbass, hac, hroom]
  · intro ctx fn h hbass hac hecho
    have hb : (lowerStr (pySuffix fn) == chars (".nam")) = false :=
      beq_eq_false_iff_ne.mpr h
    have hroom : containsAny (lowerStr (ctx ++ ' ' :: fn)) megaRoomKws = true := by
      refine List.any_eq_true.mpr ⟨chars ("echo"), ?_, hecho⟩
      decide
    simp [categorize, hb, hbass, hac, hroom]
  · intro ctx fn h hbass hac hroom
    have hb : (lowerStr (pySuffix fn) == chars (".nam")) = false :=
      beq_eq_false_iff_ne.mpr h
    simp [categorize, hb, hbass, hac, hroom]
  · intro ctx
    simp [categorize, hnam]
  · intro ctx
    simp [blitzCategorize, hnam]

/-- Witness for C2: a context containing only the room keyword `echo` is
filed under `IR_Utilidades` by the mega classifier. -/
theorem categorize_spec_witness :
    categorize (chars ("guitar echo demo")) (chars ("x.wav")) = chars ("IR_Utilidades") :=
  categorize_spec.2.2.2.2.1 (chars ("guitar echo demo")) (chars ("x.wav"))
    (by decide) (by decide) (by decide) (by decide)

/-- C2 counterexample: the blitz classifier's room set omits `echo`, so a
context whose only room keyword is `echo` falls through to the guitar
default instead of `IR_Utilidades`. -/
theorem blitz_echo_counterexample :
    blitzCategorize (chars ("guitar echo demo")) (chars ("x.wav")) = chars ("IR_Guitarra")
    ∧ blitzCategorize (chars ("guitar echo demo")) (chars ("x.wav"))
        ≠ chars ("IR_Utilidades") :=
  ⟨by decide, by decide⟩

/-! ## Helper lemmas for C1. -/

theorem optOr_none (a : Option (List Char)) : optOr a none = a := by
  cases a <;> rfl

theorem hLookup_append (d k : List Nat) (v : List Char) :
    ∀ l : List (List Nat × List Char),
      hLookup d (l ++ [(k, v)])
        = optOr (hLookup d l) (if k = d then some v else none)
  | [] => by simp [hLookup, optOr]
  | (k', v') :: rest => by
    by_cases hk : k' = d
    · simp [hLookup, hk, optOr]
    · simp only [List.cons_append, hLookup, if_neg hk]
      exact hLookup_append d k v rest

theorem find?_congr_ptwise {α : Type} (p q : α → Bool) (hpq : ∀ a, p a = q a) :
    ∀ l : List α, l.find? p = l.find? q
  | [] => rfl
  | a :: l => by
    rw [List.find?_cons, List.find?_cons, hpq a, find?_congr_ptwise p q hpq l]

/-- How one `is_dup` call changes what a later digest lookup sees. -/
theorem is_dup_lookup_step (h : List Nat → List Nat) (st : CacheData)
    (p : List Char) (c d : List Nat) :
    hLookup d (Cache.is_dup h st p c).2.hashes
      = optOr (hLookup d st.hashes)
          (if hLookup (h c) st.hashes = none ∧ h c = d then some p else none) := by
  unfold Cache.is_dup
  cases hq : hLookup (h c) st.hashes with
  | some v =>
    simp only [hq]
    have : ¬ ((some v : Option (List Char)) = none ∧ h c = d) := by
      rintro ⟨hcon, _⟩; cases hcon
    rw [if_neg this, optOr_none]
  | none =>
    simp only [hq]
    rw [hLookup_append]
    congr 1
    by_cases hcd : h c = d
    · simp [hcd]
    · simp [hcd]

/-- Digest lookup after a whole run: the initial table wins, else the path
of the first presented file with that digest. -/
theorem runDup_lookup (h : List Nat → List Nat) (d : List Nat) :
    ∀ (fs : List (List Char × List Nat)) (st : CacheData),
      hLookup d (runDup h st fs).2.hashes
        = optOr (hLookup d st.hashes)
            ((fs.find? (fun f => h f.2 == d)).map Prod.fst)
  | [], st => by simp [runDup, optOr_none]
  | (p, c) :: rest, st => by
    have hrun : (runDup h st ((p, c) :: rest)).2
        = (runDup h (Cache.is_dup h st p c).2 rest).2 := by
      simp [runDup]
    rw [hrun, runDup_lookup h d rest (Cache.is_dup h st p c).2, is_dup_lookup_step]
    by_cases hcd : h c = d
    · rw [List.find?_cons_of_pos _ (by simpa using hcd)]
      cases hq : hLookup (h c) st.hashes with
      | some v =>
        have hd : hLookup d st.hashes = some v := by rw [← hcd]; exact hq
        simp [hd, optOr, hq, hcd]
      | none =>
        have hd : hLookup d st.hashes = none := by rw [← hcd]; exact hq
        simp [hd, optOr, hq, hcd]
    · rw [List.find?_cons_of_neg _ (by simpa using hcd)]
      have : (if hLookup (h c) st.hashes = none ∧ h c = d then some p else none)
          = none := by
        rw [if_neg]; rintro ⟨_, hcon⟩; exact hcd hcon
      rw [this, optOr_none]

theorem exists_lt_succ_shift (P : Nat → Prop) (j : Nat) :
    (∃ i, i < j + 1 ∧ P i) ↔ P 0 ∨ ∃ i, i < j ∧ P (i + 1) := by
  constructor
  · rintro ⟨i, hi, hp⟩
    cases i with
    | zero => exact Or.inl hp
    | succ i => exact Or.inr ⟨i, by omega, hp⟩
  · rintro (hp | ⟨i, hi, hp⟩)
    · exact ⟨0, by omega, hp⟩
    · exact ⟨i + 1, by omega, hp⟩

/-- The boolean returned for the `j`-th file: true iff its digest was
already in the starting table or an earlier presented file shares it. -/
theorem runDup_results (h : List Nat → List Nat) :
    ∀ (fs : List (List Char × List Nat)) (st : CacheData) (j : Nat), j < fs.length →
      ((runDup h st fs).1.getD j false = true ↔
        (hLookup (h (contentAt fs j)) st.hashes).isSome = true
        ∨ ∃ i, i < j ∧ h (contentAt fs i) = h (contentAt fs j))
  | [], _, j, hj => absurd hj (Nat.not_lt_zero j)
  | (p, c) :: rest, st, 0, _ => by
    have hres : (runDup h st ((p, c) :: rest)).1.getD 0 false
        = (Cache.is_dup h st p c).1 := by
      simp [runDup]
    have hcont0 : contentAt ((p, c) :: rest) 0 = c := rfl
    rw [hres, hcont0]
    cases hq : hLookup (h c) st.hashes with
    | some v =>
      have h1 : (Cache.is_dup h st p c).1 = true := by simp [Cache.is_dup, hq]
      rw [h1]
      simp
    | none =>
      have h1 : (Cache.is_dup h st p c).1 = false := by simp [Cache.is_dup, hq]
      rw [h1]
      constructor
      · intro hcon; simp at hcon
      · rintro (hcon | ⟨i, hi, _⟩)
        · simp at hcon
        · exact absurd hi (Nat.not_lt_zero i)
  | (p, c) :: rest, st, j + 1, hj => by
    have hres : (runDup h st ((p, c) :: rest)).1.getD (j + 1) false
        = (runDup h (Cache.is_dup h st p c).2 rest).1.getD j false := by
      simp [runDup]
    have hcont0 : contentAt ((p, c) :: rest) 0 = c := rfl
    have hconts : ∀ i, contentAt ((p, c) :: rest) (i + 1) = contentAt rest i :=
      fun i => rfl
    have hlen : j < rest.length := by
      have := Nat.lt_of_succ_lt_succ (by simpa using hj)
      exact this
    rw [hres, runDup_results h rest (Cache.is_dup h st p c).2 j hlen]
    rw [is_dup_lookup_step h st p c (h (contentAt rest j))]
    rw [exists_lt_succ_shift (fun i => h (contentAt ((p, c) :: rest) i)
      = h (contentAt ((p, c) :: rest) (j + 1))) j]
    simp only [hcont0, hconts]
    cases hq : hLookup (h c) st.hashes with
    | some v =>
      rw [if_neg (by rintro ⟨hcon, _⟩; cases hcon), optOr_none]
      constructor
      · rintro (hs | he)
        · exact Or.inl hs
        · exact Or.inr (Or.inr he)
      · rintro (hs | hcd | he)
        · exact Or.inl hs
        · have hA : hLookup (h (contentAt rest j)) st.hashes = some v := by
            rw [← hcd]; exact hq
          exact Or.inl (by rw [hA]; rfl)
        · exact Or.inr he
    | none =>
      by_cases hcd : h c = h (contentAt rest j)
      · rw [if_pos ⟨rfl, hcd⟩]
        have hA : hLookup (h (contentAt rest j)) st.hashes = none := by
          rw [← hcd]; exact hq
        rw [hA]
        constructor
        · intro _; exact Or.inr (Or.inl hcd)
        · intro _; exact Or.inl (by simp [optOr])
      · rw [if_neg (by rintro ⟨_, hcon⟩; exact hcd hcon), optOr_none]
        constructor
        · rintro (hs | he)
          · exact Or.inl hs
          · exact Or.inr (Or.inr he)
        · rintro (hs | hcd2 | he)
          · exact Or.inl hs
          · exact absurd hcd2 hcd
          · exact Or.inr he

/-- C1: presenting any sequence of files to `Cache.is_dup` from an empty
cache (with a collision-free digest), the `j`-th call returns true iff an
earlier file had byte-identical content — so the first file with a given
content returns false — and the index entry for that digest is the path of
the FIRST file with that content (hits never update it). -/
theorem is_dup_first_false (h : List Nat → List Nat)
    (hinj : Function.Injective h) (fs : List (List Char × List Nat))
    (j : Nat) (hj : j < fs.length) :
    ((runDup h cacheEmpty fs).1.getD j false = true ↔
      ∃ i, i < j ∧ contentAt fs i = contentAt fs j)
    ∧ hLookup (h (contentAt fs j)) (runDup h cacheEmpty fs).2.hashes
        = (fs.find? (fun f => f.2 == contentAt fs j)).map Prod.fst := by
  constructor
  · rw [runDup_results h fs cacheEmpty j hj]
    have hempty : hLookup (h (contentAt fs j)) cacheEmpty.hashes = none := rfl
    rw [hempty]
    constructor
    · rintro (hs | ⟨i, hi, he⟩)
      · simp at hs
      · exact ⟨i, hi, hinj he⟩
    · rintro ⟨i, hi, he⟩
      exact Or.inr ⟨i, hi, by rw [he]⟩
  · rw [runDup_lookup h (h (contentAt fs j)) fs cacheEmpty]
    have hempty : hLookup (h (contentAt fs j)) cacheEmpty.hashes = none := rfl
    rw [hempty]
    have hpred : ∀ f : List Char × List Nat,
        (h f.2 == h (contentAt fs j)) = (f.2 == contentAt fs j) := by
      intro f
      by_cases hfe : f.2 = contentAt fs j
      · simp [hfe]
      · have hne : h f.2 ≠ h (contentAt fs j) := fun hh => hfe (hinj hh)
        simp [hfe, hne]
    rw [find?_congr_ptwise _ _ hpred fs]
    cases (fs.find? (fun f => f.2 == contentAt fs j)).map Prod.fst with
    | none => rfl
    | some x => rfl

/-- Witness for C1: two paths with identical bytes — the second call
returns true and the index keeps the first path. -/
theorem is_dup_first_false_witness :
    Function.Injective (fun c : List Nat => c)
    ∧ (((runDup (fun c => c) cacheEmpty demoFiles).1.getD 1 false = true ↔
        ∃ i, i < 1 ∧ contentAt demoFiles i = contentAt demoFiles 1)
      ∧ hLookup ((fun c : List Nat => c) (contentAt demoFiles 1))
          (runDup (fun c => c) cacheEmpty demoFiles).2.hashes
        = (demoFiles.find? (fun f => f.2 == contentAt demoFiles 1)).map Prod.fst) :=
  ⟨fun a b hab => hab,
   is_dup_first_false (fun c => c) (fun a b hab => hab) demoFiles 1 (by decide)⟩

/-! ## Helper lemmas for C4: substring algebra and matcher facts. -/

theorem sub_append_right (a b ext : List Char) (h : a <:+: b) : a <:+: b ++ ext := by
  obtain ⟨s, t, rfl⟩ := h
  exact ⟨s, t ++ ext, by simp⟩

theorem sub_map_lower (a b : List Char) (h : a <:+: b) :
    lowerStr a <:+: lowerStr b := by
  obtain ⟨s, t, rfl⟩ := h
  exact ⟨lowerStr s, lowerStr t, by simp [lowerStr]⟩

theorem sub_trans (a b c : List Char) (h1 : a <:+: b) (h2 : b <:+: c) :
    a <:+: c := by
  obtain ⟨s, t, rfl⟩ := h1
  obtain ⟨u, v, rfl⟩ := h2
  exact ⟨u ++ s, t ++ v, by simp⟩

/-- A pattern made only of literal characters matches at the head of `s`
exactly when it is a prefix of `s`. -/
theorem mAt_lits_ne_nil (w : List Char) :
    ∀ (q : Option Char) (s : List Char), w <+: s → mAt (lits w) q s ≠ [] := by
  induction w with
  | nil =>
    intro q s _
    simp [lits, mAt]
  | cons c w ih =>
    intro q s hp
    obtain ⟨rest, rfl⟩ := hp
    intro hcon
    apply ih (some c) (w ++ rest) ⟨rest, rfl⟩
    simpa [lits, mAt] using hcon

theorem pre_of_mAt_lits (w : List Char) :
    ∀ (q : Option Char) (s : List Char), mAt (lits w) q s ≠ [] → w <+: s := by
  induction w with
  | nil => intro q s _; exact ⟨s, rfl⟩
  | cons c w ih =>
    intro q s hne
    cases s with
    | nil => simp [lits, mAt] at hne
    | cons x xs =>
      by_cases hx : x = c
      · subst hx
        have hxs : mAt (lits w) (some x) xs ≠ [] := by
          intro hcon
          apply hne
          simp [lits, mAt, hcon]
        obtain ⟨t, ht⟩ := ih (some x) xs hxs
        exact ⟨t, by rw [← ht]; rfl⟩
      · exfalso
        apply hne
        simp [lits, mAt, hx]

theorem searchFrom_true_of_head (r : RE) (p : Option Char) (s : List Char)
    (hne : mAt r p s ≠ []) : searchFrom r p s = true := by
  have hie : (mAt r p s).isEmpty = false := by
    cases hq : mAt r p s with
    | nil => exact absurd hq hne
    | cons y ys => rfl
  cases s with
  | nil => simp [searchFrom, hie]
  | cons x xs => simp [searchFrom, hie]

theorem searchFrom_append (r : RE) (b : List Char) (hb : ∀ q, mAt r q b ≠ []) :
    ∀ (a : List Char) (p : Option Char), searchFrom r p (a ++ b) = true
  | [], p => searchFrom_true_of_head r p b (hb p)
  | x :: a, p => by
    show searchFrom r p (x :: (a ++ b)) = true
    simp [searchFrom, searchFrom_append r b hb a (some x)]

/-- If `pat` occurs in `t` and `r` matches at the head of anything `pat`
prefixes, then `re.search` finds `r` in `t`. -/
theorem reSearch_of_within (r : RE) (pat t : List Char) (hsub : pat <:+: t)
    (hm : ∀ q s, pat <+: s → mAt r q s ≠ []) : reSearch r t = true := by
  obtain ⟨l, rr, rfl⟩ := hsub
  rw [reSearch, List.append_assoc]
  exact searchFrom_append r (pat ++ rr) (fun q => hm q _ ⟨rr, rfl⟩) l none

theorem searchFrom_exists (r : RE) :
    ∀ (s : List Char) (p : Option Char), searchFrom r p s = true →
      ∃ q s', s' <:+ s ∧ mAt r q s' ≠ []
  | [], p, hs => by
    refine ⟨p, [], ⟨[], rfl⟩, ?_⟩
    intro hcon
    rw [searchFrom, hcon] at hs
    cases hs
  | x :: xs, p, hs => by
    cases hie : (mAt r p (x :: xs)).isEmpty with
    | false =>
      refine ⟨p, x :: xs, ⟨[], rfl⟩, ?_⟩
      intro hcon
      rw [hcon] at hie
      cases hie
    | true =>
      have hs' : searchFrom r (some x) xs = true := by
        rw [searchFrom, hie] at hs
        simpa using hs
      obtain ⟨q, s', hsuf, hne⟩ := searchFrom_exists r xs (some x) hs'
      obtain ⟨l, rfl⟩ := hsuf
      exact ⟨q, s', ⟨x :: l, rfl⟩, hne⟩

/-- `re.search` on a literal-only pattern is exactly substring
containment. -/
theorem reSearch_lits_iff (w t : List Char) :
    reSearch (lits w) t = true ↔ w <:+: t := by
  constructor
  · intro hs
    obtain ⟨q, s', ⟨l, rfl⟩, hne⟩ := searchFrom_exists (lits w) t none hs
    obtain ⟨rr, rfl⟩ := pre_of_mAt_lits w q s' hne
    exact ⟨l, rr, by simp⟩
  · intro hsub
    exact reSearch_of_within (lits w) w t hsub (fun q s hp => mAt_lits_ne_nil w q s hp)

theorem reSearch_lits_false (w t : List Char) (h : ¬ w <:+: t) :
    reSearch (lits w) t = false := by
  cases hq : reSearch (lits w) t with
  | false => rfl
  | true => exact absurd ((reSearch_lits_iff w t).mp hq) h

theorem mAt_alt_ne_nil_left (a b : RE) (q : Option Char) (s : List Char)
    (ha : mAt a q s ≠ []) : mAt (RE.alt a b) q s ≠ [] := by
  intro hcon
  rw [show mAt (RE.alt a b) q s = mAt a q s ++ mAt b q s from rfl] at hcon
  exact ha (List.append_eq_nil.mp hcon).1

/-- The first `model_patterns` alternative `jcm\s*?800` matches wherever
the plain text `jcm800` starts. -/
theorem mAt_jcm_branch (q : Option Char) (s : List Char)
    (hp : chars ("jcm800") <+: s) :
    mAt (rcat [litsS ("jcm"), wsStar, litsS ("800")]) q s ≠ [] := by
  obtain ⟨rest, rfl⟩ := hp
  have hw : chars ("jcm800") ++ rest
      = 'j' :: 'c' :: 'm' :: '8' :: '0' :: '0' :: rest := rfl
  have hr : rcat [litsS ("jcm"), wsStar, litsS ("800")]
      = RE.seq (RE.seq (RE.lit 'j') (RE.seq (RE.lit 'c') (RE.seq (RE.lit 'm') RE.eps)))
          (RE.seq (RE.star CC.ws)
            (RE.seq (RE.lit '8') (RE.seq (RE.lit '0') (RE.seq (RE.lit '0') RE.eps)))) := rfl
  rw [hw, hr]
  simp [mAt, starStates, ccMatch]

/-- The first branch of the hi-gain style pattern `(high|hi).?gain` matches
wherever the plain text `high gain` starts. -/
theorem mAt_higain_branch (q : Option Char) (s : List Char)
    (hp : chars ("high gain") <+: s) :
    mAt (rcat [ralt [litsS ("high"), litsS ("hi")], RE.opt reAny, litsS ("gain")])
      q s ≠ [] := by
  obtain ⟨rest, rfl⟩ := hp
  have hw : chars ("high gain") ++ rest
      = 'h' :: 'i' :: 'g' :: 'h' :: ' ' :: 'g' :: 'a' :: 'i' :: 'n' :: rest := rfl
  have hr : rcat [ralt [litsS ("high"), litsS ("hi")], RE.opt reAny, litsS ("gain")]
      = RE.seq (RE.alt
            (RE.seq (RE.lit 'h') (RE.seq (RE.lit 'i') (RE.seq (RE.lit 'g') (RE.seq (RE.lit 'h') RE.eps))))
            (RE.seq (RE.lit 'h') (RE.seq (RE.lit 'i') RE.eps)))
          (RE.seq (RE.opt (RE.cls CC.any))
            (RE.seq (RE.lit 'g') (RE.seq (RE.lit 'a') (RE.seq (RE.lit 'i') (RE.seq (RE.lit 'n') RE.eps))))) := rfl
  rw [hw, hr]
  simp [mAt, starStates, ccMatch]

theorem reSearch_jcm_true (t : List Char) (hs : chars ("jcm800") <:+: t) :
    reSearch (ralt [rcat [litsS ("jcm"), wsStar, litsS ("800")],
      rcat [litsS ("jcm"), wsStar, litsS ("900")],
      rcat [litsS ("jcm"), wsStar, litsS ("2000")]]) t = true := by
  apply reSearch_of_within _ _ _ hs
  intro q s hp
  have hralt : ralt [rcat [litsS ("jcm"), wsStar, litsS ("800")],
        rcat [litsS ("jcm"), wsStar, litsS ("900")],
        rcat [litsS ("jcm"), wsStar, litsS ("2000")]]
      = RE.alt (rcat [litsS ("jcm"), wsStar, litsS ("800")])
          (RE.alt (rcat [litsS ("jcm"), wsStar, litsS ("900")])
            (rcat [litsS ("jcm"), wsStar, litsS ("2000")])) := rfl
  rw [hralt]
  exact mAt_alt_ne_nil_left _ _ _ _ (mAt_jcm_branch q s hp)

theorem reSearch_higain_true (t : List Char) (hs : chars ("high gain") <:+: t) :
    reSearch higainRE t = true := by
  apply reSearch_of_within _ _ _ hs
  intro q s hp
  have hh : higainRE
      = RE.alt (rcat [ralt [litsS ("high"), litsS ("hi")], RE.opt reAny, litsS ("gain")])
          (RE.alt (litsS ("metal")) (RE.alt (litsS ("lead"))
            (RE.alt (litsS ("dist")) (RE.alt (litsS ("ch3")) (litsS ("red")))))) := rfl
  rw [hh]
  exact mAt_alt_ne_nil_left _ _ _ _ (mAt_higain_branch q s hp)

/-- C4 amended: for every input whose context contains the phrase
`Marshall JCM800 4x12 V30 SM57 high gain` and whose full classification
text contains no earlier-table cabinet token (`1x12`, `2x12`), the
generated stem is exactly `Marshall_Jcm_4x12_Sm57_Higain`: the brand,
model, cabinet, mic and style tokens appear in order but title-cased by
the final capitalization pass (`Jcm`, `Sm57`, `Higain`), joined by single
underscores with no leading or trailing underscore. -/
theorem clean_filename_marshall (ctx fn : List Char)
    (h1 : marshallPhrase <:+: ctx)
    (h2 : ¬ (chars ("1x12") <:+: searchText ctx fn))
    (h3 : ¬ (chars ("2x12") <:+: searchText ctx fn)) :
    partsOf ctx fn = [chars ("Marshall"), chars ("JCM"), chars ("4x12"),
      chars ("SM57"), chars ("HiGain")]
    ∧ clean_filename ctx fn = marshallStem ++ lowerStr (pySuffix fn)
    ∧ ¬ (chars ("__") <:+: marshallStem)
    ∧ marshallStem.head? ≠ some '_'
    ∧ marshallStem.getLast? ≠ some '_' := by
  have hT : lphrase <:+: fullContext ctx fn := by
    have hx := sub_map_lower _ _ (sub_append_right _ _ ('_' :: cleanedStem fn) h1)
    rwa [show lowerStr marshallPhrase = lphrase from by decide] at hx
  have hTT : lphrase <:+: searchText ctx fn := by
    have hx := sub_map_lower _ _ hT
    rwa [show lowerStr lphrase = lphrase from by decide] at hx
  have hbm : reSearch (litsS ("marshall")) (lowerStr (fullContext ctx fn)) = true := by
    have hsub : chars ("marshall") <:+: searchText ctx fn :=
      sub_trans _ _ _ (by decide) hTT
    exact (reSearch_lits_iff _ _).mpr hsub
  have hbrand : reMatch (fullContext ctx fn) BRANDS = some (chars ("Marshall")) := by
    simp only [reMatch]
    unfold BRANDS
    rw [List.findSome?_cons]
    simp [hbm]
  have hjcm : reSearch (ralt [rcat [litsS ("jcm"), wsStar, litsS ("800")],
      rcat [litsS ("jcm"), wsStar, litsS ("900")],
      rcat [litsS ("jcm"), wsStar, litsS ("2000")]])
      (lowerStr (fullContext ctx fn)) = true :=
    reSearch_jcm_true _ (sub_trans _ _ _ (by decide) hTT)
  have hmodel : modelFind (fullContext ctx fn) = some (chars ("JCM")) := by
    simp only [modelFind]
    unfold modelPatterns
    rw [List.findSome?_cons]
    simp [hjcm]
  have hf1 : reSearch (litsS ("1x12")) (lowerStr (fullContext ctx fn)) = false :=
    reSearch_lits_false _ _ h2
  have hf2 : reSearch (litsS ("2x12")) (lowerStr (fullContext ctx fn)) = false :=
    reSearch_lits_false _ _ h3
  have ht4 : reSearch (litsS ("4x12")) (lowerStr (fullContext ctx fn)) = true :=
    (reSearch_lits_iff _ _).mpr (sub_trans _ _ _ (by decide) hTT)
  have hcab : reMatch (fullContext ctx fn) CABS = some (chars ("4x12")) := by
    simp only [reMatch]
    unfold CABS
    simp [List.findSome?_cons, hf1, hf2, ht4]
  have ht57 : reSearch (litsS ("sm57")) (lowerStr (fullContext ctx fn)) = true :=
    (reSearch_lits_iff _ _).mpr (sub_trans _ _ _ (by decide) hTT)
  have hmic : reMatch (fullContext ctx fn) MICS = some (chars ("SM57")) := by
    simp only [reMatch]
    unfold MICS
    rw [List.findSome?_cons]
    simp [ht57]
  have hstyle : reSearch higainRE (fullContext ctx fn) = true :=
    reSearch_higain_true _ (sub_trans _ _ _ (by decide) hT)
  have hparts : partsOf ctx fn = [chars ("Marshall"), chars ("JCM"),
      chars ("4x12"), chars ("SM57"), chars ("HiGain")] := by
    simp only [partsOf]
    rw [hbrand, hmodel, hcab, hmic, hstyle]
    have hc1 : (([chars ("Marshall")] : List (List Char)).contains (chars ("JCM")))
        = false := by decide
    have hc2 : hasSub (chars ("Marshall")) (chars ("JCM")) = false := by decide
    have hne : chars ("JCM") ≠ chars ("Marshall") := by decide
    simp [hc1, hc2, hne]
  refine ⟨hparts, ?_, by decide, by decide, by decide⟩
  simp only [clean_filename]
  rw [hparts]
  have hstem : List.intercalate ['_'] (((stripUnderscores (collapseUnderscores
      (List.intercalate ['_'] [chars ("Marshall"), chars ("JCM"), chars ("4x12"),
        chars ("SM57"), chars ("HiGain")]))).splitOn '_').map pyCapitalize)
      = marshallStem := by decide
  rw [hstem]

/-- Witness for C4 with the phrase itself as context and filename
`ir.wav`. -/
theorem clean_filename_marshall_witness :
    (marshallPhrase <:+: marshallPhrase)
    ∧ clean_filename marshallPhrase (chars ("ir.wav"))
      = marshallStem ++ lowerStr (pySuffix (chars ("ir.wav"))) :=
  ⟨⟨[], [], by simp⟩,
   (clean_filename_marshall marshallPhrase (chars ("ir.wav"))
      ⟨[], [], by simp⟩ (by decide) (by decide)).2.1⟩

/-- C4 counterexample: on the claim's own input the generated stem is
`Marshall_Jcm_4x12_Sm57_Higain` — the capitalization pass rewrites the
tokens, so the literal mic token `SM57` and style token `HiGain` do NOT
occur in the stem. -/
theorem clean_filename_case_counterexample :
    pyStem (clean_filename marshallPhrase (chars ("ir.wav"))) = marshallStem
    ∧ ¬ (chars ("SM57") <:+: pyStem (clean_filename marshallPhrase (chars ("ir.wav"))))
    ∧ ¬ (chars ("HiGain") <:+: pyStem (clean_filename marshallPhrase (chars ("ir.wav")))) :=
  ⟨by decide, by decide, by decide⟩

end IRRepo

